import Mathlib

/-!
Shallow embedding of the `nautobot-jobs` repository (`jobs/device_names.py`,
`jobs/port_labels.py`, `jobs/device_component_update.py`, `jobs/util.py`)
and proofs about its claims.

Conventions used throughout:
* Python strings are Lean `String`s; `re.search (\d+)$` is modelled as the
  maximal ASCII-digit suffix of the string (`trailingDigits`).
* ORM model instances are flattened records; relations that the code reads
  (`device.location.name`, `device.role.name`) appear as string fields, and
  primary keys as `Nat` identities.
* Mutating `save` / `validated_save` calls are modelled by returning the
  updated record together with a `Bool` that records whether a save happened.
* Python exceptions are modelled with `Except`: a `raise` is `Except.error`,
  a `try/except` block is a `match` on the `Except` value.
-/

namespace NbJobs

/-- Mirrors `re.search(r"(\d+)$", s)` from `device_names.py` line 20 and
`port_labels.py` line 26: the maximal run of digits at the end of `s`,
`Option.none` when `s` does not end in a digit. -/
def trailingDigits (s : String) : Option String :=
  let ds := (s.data.reverse.takeWhile Char.isDigit).reverse
  if ds.isEmpty then Option.none else some (String.mk ds)

/-- Flattened `nautobot.dcim.models.Device` record with the fields that
`UpdateDeviceNamesMixin` reads and writes: `device.name`,
`device.location.name`, `device.role.name`, and the foreign keys used by the
`Q` filters in `UpdateDeviceNamesMixin.update`. -/
structure Device where
  pk : Nat
  name : String
  locationName : String
  roleName : String
  locationPk : Nat
  deviceTypePk : Nat
deriving DecidableEq, Repr

/-- Embeds `UpdateDeviceNamesMixin.update_device_name` (`device_names.py`
lines 18-31).  Returns the resulting device together with a flag recording
whether `device.save()` was called. -/
def update_device_name (device : Device) : Device × Bool :=
  match trailingDigits device.name with
  | Option.none => (device, false)
  | some device_index =>
      let new_name := device.locationName ++ "-" ++ device.roleName ++ device_index
      if device.name ≠ new_name then
        ({ device with name := new_name }, true)
      else
        (device, false)

/-- Front or rear port record with the fields read and written by
`UpdatePortLabelsMixin.update_object` (`port_labels.py` lines 20-37). -/
structure Port where
  pk : Nat
  name : String
  label : String
deriving DecidableEq, Repr

/-- Embeds the body of the inner loop of `UpdatePortLabelsMixin.update_object`
(`port_labels.py` lines 24-37) for one port of the device named
`deviceName`.  The `Bool` records whether `port.validated_save()` was called
(validation itself is owned by the external ORM and modelled as succeeding). -/
def portStep (deviceName : String) (port : Port) : Port × Bool :=
  match trailingDigits port.name with
  | Option.none => (port, false)
  | some port_index =>
      let new_label := deviceName ++ "-" ++ port_index
      if port.label ≠ new_label then
        ({ port with label := new_label }, true)
      else
        (port, false)

/-- Device together with its `front_ports` and `rear_ports` collections, as
iterated by `UpdatePortLabelsMixin.update_object` (`port_labels.py` line 22). -/
structure PortDevice where
  name : String
  front_ports : List Port
  rear_ports : List Port
deriving DecidableEq, Repr

/-- Embeds `UpdatePortLabelsMixin.update_object` (`port_labels.py` lines
20-37): both port collections of the device are traversed and each port is
relabelled by `portStep`. -/
def update_object (device : PortDevice) : PortDevice :=
  { device with
      front_ports := device.front_ports.map (fun p => (portStep device.name p).1)
      rear_ports := device.rear_ports.map (fun p => (portStep device.name p).1) }

/- ### Basic facts about `trailingDigits` -/

theorem mem_takeWhile_digit {l : List Char} {c : Char}
    (h : c ∈ l.takeWhile Char.isDigit) : c.isDigit = true := by
  induction l with
  | nil => simp [List.takeWhile] at h
  | cons a l ih =>
      rw [List.takeWhile_cons] at h
      by_cases ha : a.isDigit
      · simp [ha] at h
        rcases h with h | h
        · exact h ▸ ha
        · exact ih h
      · simp [Bool.of_not_eq_true ha] at h

theorem trailingDigits_some {s i : String} (h : trailingDigits s = some i) :
    i.data ≠ [] ∧ ∀ c ∈ i.data, c.isDigit = true := by
  unfold trailingDigits at h
  by_cases he : ((s.data.reverse.takeWhile Char.isDigit).reverse).isEmpty
  · simp [he] at h
  · simp [he] at h
    constructor
    · rw [← h]
      simpa [List.isEmpty_iff] using he
    · intro c hc
      rw [← h] at hc
      simp only [List.mem_reverse] at hc
      exact mem_takeWhile_digit hc

theorem takeWhile_append_of_all {p : Char → Bool} {l₁ l₂ : List Char}
    (h : ∀ c ∈ l₁, p c = true) :
    (l₁ ++ l₂).takeWhile p = l₁ ++ l₂.takeWhile p := by
  induction l₁ with
  | nil => simp
  | cons a l ih =>
      have ha : p a = true := h a (List.mem_cons_self a l)
      simp [List.takeWhile_cons, ha]
      exact ih (fun c hc => h c (List.mem_cons_of_mem a hc))

theorem takeWhile_append_nil {p : Char → Bool} {l₁ l₂ : List Char} {m : Char}
    (h : l₁.takeWhile p = []) (hm : p m = false) :
    (l₁ ++ m :: l₂).takeWhile p = [] := by
  cases l₁ with
  | nil => simp [List.takeWhile_cons, hm]
  | cons a l =>
      rw [List.takeWhile_cons] at h
      by_cases ha : p a
      · simp [ha] at h
      · rw [List.cons_append, List.takeWhile_cons]
        simp [Bool.of_not_eq_true ha]

theorem trailingDigits_none_iff {s : String} :
    trailingDigits s = Option.none ↔ s.data.reverse.takeWhile Char.isDigit = [] := by
  unfold trailingDigits
  by_cases he : ((s.data.reverse.takeWhile Char.isDigit).reverse).isEmpty
  · simp [he]
    simpa [List.isEmpty_iff, List.reverse_eq_nil_iff] using he
  · simp [he]
    simpa [List.isEmpty_iff, List.reverse_eq_nil_iff] using he

/-- Appending a nonempty all-digit suffix to a string with no trailing digits
yields exactly that suffix as the trailing-digit run. -/
theorem trailingDigits_append {b i : String}
    (hne : i.data ≠ []) (hdig : ∀ c ∈ i.data, c.isDigit = true)
    (hb : b.data.reverse.takeWhile Char.isDigit = []) :
    trailingDigits (b ++ i) = some i := by
  have hdata : (b ++ i).data = b.data ++ i.data := rfl
  unfold trailingDigits
  rw [hdata, List.reverse_append]
  have hall : ∀ c ∈ i.data.reverse, Char.isDigit c = true := by
    intro c hc
    exact hdig c (List.mem_reverse.mp hc)
  rw [takeWhile_append_of_all hall, hb, List.append_nil, List.reverse_reverse]
  have : i.data.isEmpty = false := by
    simpa [List.isEmpty_iff] using hne
  simp [this]

/-- A role (or any string) whose `trailingDigits` is empty contributes no
digits before the appended index; covers the `loc ++ "-" ++ role` prefix. -/
theorem prefix_no_trailing {loc role : String}
    (hrole : trailingDigits role = Option.none) :
    ((loc ++ "-" ++ role).data.reverse.takeWhile Char.isDigit) = [] := by
  have hro : role.data.reverse.takeWhile Char.isDigit = [] :=
    trailingDigits_none_iff.mp hrole
  have hdata : (loc ++ "-" ++ role).data = (loc.data ++ ['-']) ++ role.data := by
    simp [String.data_append]
  rw [hdata, List.reverse_append]
  cases hrd : role.data.reverse with
  | nil =>
      rw [List.reverse_append]
      simp [List.takeWhile_cons]
  | cons a l =>
      rw [hrd] at hro
      rw [List.takeWhile_cons] at hro
      by_cases ha : a.isDigit
      · simp [ha] at hro
      · simp [List.takeWhile_cons, Bool.of_not_eq_true ha]

/- ### C2: the naming convention -/

theorem update_device_name_facts (d : Device) (idx : String)
    (h : trailingDigits d.name = some idx) :
    (update_device_name d).1.name = d.locationName ++ "-" ++ d.roleName ++ idx ∧
    ((update_device_name d).2 = true ↔ d.locationName ++ "-" ++ d.roleName ++ idx ≠ d.name) ∧
    (update_device_name d).1.pk = d.pk ∧
    (update_device_name d).1.locationName = d.locationName ∧
    (update_device_name d).1.roleName = d.roleName := by
  unfold update_device_name
  rw [h]
  by_cases hne : d.name ≠ d.locationName ++ "-" ++ d.roleName ++ idx
  · simp [hne]
    exact fun hc => absurd hc.symm hne
  · push_neg at hne
    simp [hne]

/-- C2: for a device whose name ends in the maximal digit string `idx`,
`update_device_name` leaves the device named
`location.name ++ "-" ++ role.name ++ idx`, saves it exactly when this new
name differs from the old one, and touches no other field. -/
theorem C2_device_name_convention (d : Device) (idx : String)
    (h : trailingDigits d.name = some idx) :
    (update_device_name d).1.name = d.locationName ++ "-" ++ d.roleName ++ idx ∧
    ((update_device_name d).2 = true ↔ d.locationName ++ "-" ++ d.roleName ++ idx ≠ d.name) ∧
    (update_device_name d).1.pk = d.pk ∧
    (update_device_name d).1.locationName = d.locationName ∧
    (update_device_name d).1.roleName = d.roleName :=
  update_device_name_facts d idx h

theorem C2_device_name_convention_witness :
    (update_device_name (Device.mk 7 "sw 3" "HQ" "AP" 1 2)).1.name = "HQ-AP3" :=
  ((C2_device_name_convention (Device.mk 7 "sw 3" "HQ" "AP" 1 2) "3" (by decide)).1).trans
    (by decide)

/- ### C9: devices and ports without trailing digits are skipped -/

/-- C9: a device whose name has no trailing digits is left completely
unchanged and not saved by `update_device_name`, and a port whose name has no
trailing digits is left unchanged and not saved by the port-label loop. -/
theorem C9_no_digits_skipped (d : Device) (dn : String) (p : Port)
    (h1 : trailingDigits d.name = Option.none)
    (h2 : trailingDigits p.name = Option.none) :
    update_device_name d = (d, false) ∧ portStep dn p = (p, false) := by
  constructor
  · unfold update_device_name
    rw [h1]
  · unfold portStep
    rw [h2]

theorem C9_no_digits_skipped_witness :
    update_device_name (Device.mk 1 "core" "L" "R" 0 0) = (Device.mk 1 "core" "L" "R" 0 0, false) ∧
    portStep "dev" (Port.mk 2 "eth" "old") = (Port.mk 2 "eth" "old", false) :=
  C9_no_digits_skipped (Device.mk 1 "core" "L" "R" 0 0) "dev" (Port.mk 2 "eth" "old")
    (by decide) (by decide)

/- ### C1: idempotence -/

theorem update_device_name_noop (d : Device) (idx : String)
    (h : trailingDigits d.name = some idx)
    (heq : d.locationName ++ "-" ++ d.roleName ++ idx = d.name) :
    update_device_name d = (d, false) := by
  unfold update_device_name
  rw [h]
  simp [heq]

theorem update_device_name_none (d : Device)
    (h : trailingDigits d.name = Option.none) :
    update_device_name d = (d, false) := by
  unfold update_device_name
  rw [h]

theorem portStep_none (dn : String) (p : Port)
    (h : trailingDigits p.name = Option.none) :
    portStep dn p = (p, false) := by
  unfold portStep
  rw [h]

theorem portStep_noop (dn : String) (p : Port) (idx : String)
    (h : trailingDigits p.name = some idx)
    (heq : p.label = dn ++ "-" ++ idx) :
    portStep dn p = (p, false) := by
  unfold portStep
  rw [h]
  simp [heq]

theorem portStep_name_pk (dn : String) (p : Port) :
    (portStep dn p).1.name = p.name ∧ (portStep dn p).1.pk = p.pk := by
  unfold portStep
  cases trailingDigits p.name with
  | none => exact ⟨rfl, rfl⟩
  | some idx =>
      by_cases hl : p.label ≠ dn ++ "-" ++ idx
      · simp [hl]
      · simp [hl]

theorem portStep_label (dn : String) (p : Port) (idx : String)
    (h : trailingDigits p.name = some idx) :
    (portStep dn p).1.label = dn ++ "-" ++ idx := by
  unfold portStep
  rw [h]
  by_cases hl : p.label ≠ dn ++ "-" ++ idx
  · simp [hl]
  · push_neg at hl
    simp [hl]

/-- C1 as stated is false on the device side: when the role name itself ends
in a digit, the first run produces `loc-role⟨idx⟩` whose maximal digit suffix
absorbs the role's digits, so a second run renames again.  Concretely, a
device named `dev1` at location `L` with role `R2` becomes `L-R21` and then
`L-R221`. -/
theorem C1_counterexample :
    (trailingDigits (Device.mk 1 "dev1" "L" "R2" 0 0).name).isSome = true ∧
    (update_device_name (update_device_name (Device.mk 1 "dev1" "L" "R2" 0 0)).1).1.name ≠
      (update_device_name (Device.mk 1 "dev1" "L" "R2" 0 0)).1.name := by
  constructor
  · decide
  · decide

/-- C1 amended: the port-label mutation is idempotent unconditionally, and
the device rename is idempotent whenever the device's role name does not
itself end in a digit (the counterexample forces exactly this restriction). -/
theorem C1_idempotent_amended (d : Device) (dn : String) (p : Port)
    (hrole : trailingDigits d.roleName = Option.none) :
    (update_device_name (update_device_name d).1).1.name = (update_device_name d).1.name ∧
    (portStep dn (portStep dn p).1).1.label = (portStep dn p).1.label := by
  constructor
  · cases hname : trailingDigits d.name with
    | none =>
        have h0 := update_device_name_none d hname
        rw [h0]
        rw [h0]
    | some idx =>
        obtain ⟨hne, hdig⟩ := trailingDigits_some hname
        have hd1 : (update_device_name d).1.name =
            d.locationName ++ "-" ++ d.roleName ++ idx :=
          (update_device_name_facts d idx hname).1
        have hloc : (update_device_name d).1.locationName = d.locationName :=
          (update_device_name_facts d idx hname).2.2.2.1
        have hrl : (update_device_name d).1.roleName = d.roleName :=
          (update_device_name_facts d idx hname).2.2.2.2
        have htd : trailingDigits ((update_device_name d).1.name) = some idx := by
          rw [hd1]
          exact trailingDigits_append hne hdig (prefix_no_trailing hrole)
        have heq : (update_device_name d).1.locationName ++ "-" ++
            (update_device_name d).1.roleName ++ idx = (update_device_name d).1.name := by
          rw [hloc, hrl, hd1]
        rw [update_device_name_noop (update_device_name d).1 idx htd heq]
  · cases hp : trailingDigits p.name with
    | none =>
        have h0 := portStep_none dn p hp
        rw [h0]
        rw [h0]
    | some idx =>
        have hname : (portStep dn p).1.name = p.name := (portStep_name_pk dn p).1
        have hlab : (portStep dn p).1.label = dn ++ "-" ++ idx :=
          portStep_label dn p idx hp
        have htd : trailingDigits ((portStep dn p).1.name) = some idx := by
          rw [hname]; exact hp
        rw [portStep_noop dn (portStep dn p).1 idx htd hlab]

theorem C1_idempotent_amended_witness :
    trailingDigits (Device.mk 3 "ap7" "BR" "AP" 0 0).roleName = Option.none ∧
    (update_device_name (update_device_name (Device.mk 3 "ap7" "BR" "AP" 0 0)).1).1.name =
      (update_device_name (Device.mk 3 "ap7" "BR" "AP" 0 0)).1.name :=
  ⟨by decide,
   (C1_idempotent_amended (Device.mk 3 "ap7" "BR" "AP" 0 0) "x" (Port.mk 0 "p1" "")
      (by decide)).1⟩

/- ### C5: port label convention -/

/-- C5: for any port of a device whose name ends in the maximal digit string
`idx`, the port-label update gives it the label `device.name ++ "-" ++ idx`
and calls `validated_save` exactly when that label differs from the old one;
`update_object` applies exactly this step to every front and rear port. -/
theorem C5_port_label_convention (d : PortDevice) (p : Port) (idx : String)
    (hidx : trailingDigits p.name = some idx) :
    (portStep d.name p).1.label = d.name ++ "-" ++ idx ∧
    ((portStep d.name p).2 = true ↔ d.name ++ "-" ++ idx ≠ p.label) ∧
    (update_object d).front_ports = d.front_ports.map (fun q => (portStep d.name q).1) ∧
    (update_object d).rear_ports = d.rear_ports.map (fun q => (portStep d.name q).1) := by
  refine ⟨portStep_label d.name p idx hidx, ?_, rfl, rfl⟩
  unfold portStep
  rw [hidx]
  by_cases hl : p.label ≠ d.name ++ "-" ++ idx
  · simp [hl]
    exact fun hc => absurd hc.symm hl
  · push_neg at hl
    simp [hl]

theorem C5_port_label_convention_witness :
    (portStep (PortDevice.mk "BR-AP1" [] []).name (Port.mk 4 "Coax 1" "")).1.label =
      "BR-AP1" ++ "-" ++ "1" :=
  (C5_port_label_convention (PortDevice.mk "BR-AP1" [] []) (Port.mk 4 "Coax 1" "") "1"
    (by decide)).1

/- ### C6: mutations are bounded to the selected devices -/

/-- Truthiness test and `Q` conjunction from `UpdateDeviceNamesMixin.update`
(`device_names.py` lines 42-47): a constraint that is `None` is skipped,
otherwise it must match the device's foreign key. -/
def matchesQ (loc dt : Option Nat) (d : Device) : Bool :=
  (match loc with
   | Option.none => true
   | some l => decide (d.locationPk = l)) &&
  (match dt with
   | Option.none => true
   | some t => decide (d.deviceTypePk = t))

/-- Primary keys of the devices selected by `UpdateDeviceNamesMixin.update`:
the explicit `devices` argument when it is a non-empty list, otherwise the
result of filtering the whole `Device.objects` store with the `Q` built from
the truthy constraints. -/
def selectedPks (store : List Device) (loc dt : Option Nat)
    (devices : Option (List Device)) : List Nat :=
  match devices with
  | Option.none => (store.filter (matchesQ loc dt)).map Device.pk
  | some ds =>
      if ds.length = 0 then (store.filter (matchesQ loc dt)).map Device.pk
      else ds.map Device.pk

/-- Embeds `UpdateDeviceNamesMixin.update` (`device_names.py` lines 33-51)
acting on the data store `store` (`Device.objects`): each selected device is
renamed by `update_device_name`; every other row is untouched. -/
def updateDeviceNames (store : List Device) (loc dt : Option Nat)
    (devices : Option (List Device)) : List Device :=
  let sel := selectedPks store loc dt devices
  store.map (fun d => if d.pk ∈ sel then (update_device_name d).1 else d)

theorem pk_inj_of_nodup {store : List Device}
    (hpk : (store.map Device.pk).Nodup) {a b : Device}
    (ha : a ∈ store) (hb : b ∈ store) (h : a.pk = b.pk) : a = b :=
  List.inj_on_of_nodup_map hpk ha hb h

/-- C6: the device-name job's mutations are bounded to the selected set.  A
device of the store that is outside an explicit non-empty device list, or
that fails one of the truthy location/device-type constraints, is returned
unchanged at its position in the store. -/
theorem C6_bounded_mutations (store : List Device) (loc dt : Option Nat)
    (devices : Option (List Device)) (d : Device)
    (hpk : (store.map Device.pk).Nodup) (hd : d ∈ store)
    (hunsel : match devices with
      | some ds => ds ≠ [] ∧ d.pk ∉ ds.map Device.pk
      | Option.none => matchesQ loc dt d = false) :
    ∀ i : Nat, store[i]? = some d →
      (updateDeviceNames store loc dt devices)[i]? = some d := by
  have hsel : d.pk ∉ selectedPks store loc dt devices := by
    cases devices with
    | none =>
        intro hmem
        unfold selectedPks at hmem
        simp only [List.mem_map, List.mem_filter] at hmem
        obtain ⟨d', ⟨hd', hm'⟩, hpkeq⟩ := hmem
        have : d' = d := pk_inj_of_nodup hpk hd' hd hpkeq
        rw [this] at hm'
        rw [hunsel] at hm'
        exact Bool.false_ne_true hm'
    | some ds =>
        obtain ⟨hne, hnot⟩ := hunsel
        unfold selectedPks
        have : ¬ ds.length = 0 := by
          simpa [List.length_eq_zero] using hne
        simp only [this, if_false]
        exact hnot
  intro i hi
  unfold updateDeviceNames
  rw [List.getElem?_map, hi]
  simp [hsel]

theorem C6_bounded_mutations_witness :
    (updateDeviceNames [Device.mk 1 "a1" "L" "R" 10 20, Device.mk 2 "b2" "M" "S" 11 21]
        (some 10) Option.none Option.none)[1]? = some (Device.mk 2 "b2" "M" "S" 11 21) :=
  C6_bounded_mutations [Device.mk 1 "a1" "L" "R" 10 20, Device.mk 2 "b2" "M" "S" 11 21]
    (some 10) Option.none Option.none (Device.mk 2 "b2" "M" "S" 11 21)
    (by decide) (by decide) (by decide) 1 (by decide)

/- ### C10: `filter_objects` (`util.py` lines 34-48) -/

/-- Argument shape of `filter_objects`: `None`, a single model instance, or a
queryset (list of rows). -/
inductive FilterInput where
  | noneInput
  | single (o : Device)
  | qs (l : List Device)
deriving DecidableEq, Repr

/-- Field access used by the `Q(**{field_name: constraint})` lookups of
`filter_objects`: maps a filterable field name of `Device` to its foreign
key. -/
def deviceField (d : Device) (fieldName : String) : Option Nat :=
  if fieldName = "location" then some d.locationPk
  else if fieldName = "device_type" then some d.deviceTypePk
  else Option.none

/-- One keyword constraint of `filter_objects`: `Option.none` models a falsy
(`None`) constraint, which `if constraint:` skips; `some pk` models a truthy
related instance, matched against the device's foreign key. -/
def constraintHolds (d : Device) (c : String × Option Nat) : Bool :=
  match c.2 with
  | Option.none => true
  | some pkv => decide (deviceField d c.1 = some pkv)

/-- Conjunction of all truthy keyword constraints, the `Q` object built by
the loop at `util.py` lines 40-42. -/
def matchesFilter (kwargs : List (String × Option Nat)) (d : Device) : Bool :=
  kwargs.all (constraintHolds d)

/-- Embeds `filter_objects` (`util.py` lines 34-48) over the data store `db`
(the model's `objects` manager).  `raise ValueError` is `Except.error`; for a
single instance the filter is extended with `Q(pk=objects.pk)` and evaluated
against the store. -/
def filter_objects (db : List Device) (objects : FilterInput)
    (kwargs : List (String × Option Nat)) : Except String (List Device) :=
  match objects with
  | FilterInput.noneInput => Except.error "Must supply a non-None queryset."
  | FilterInput.single o =>
      Except.ok (db.filter (fun d => matchesFilter kwargs d && decide (d.pk = o.pk)))
  | FilterInput.qs l => Except.ok (l.filter (matchesFilter kwargs))

theorem filter_single_eq (db : List Device) (o : Device)
    (kwargs : List (String × Option Nat))
    (hpk : (db.map Device.pk).Nodup) (ho : o ∈ db) :
    db.filter (fun d => matchesFilter kwargs d && decide (d.pk = o.pk)) =
      if matchesFilter kwargs o then [o] else [] := by
  induction db with
  | nil => cases ho
  | cons a l ih =>
      rw [List.map_cons, List.nodup_cons] at hpk
      rcases List.mem_cons.mp ho with rfl | hol
      · rw [List.filter_cons]
        have hrest : l.filter (fun d => matchesFilter kwargs d && decide (d.pk = o.pk)) = [] := by
          apply List.filter_eq_nil_iff.mpr
          intro d hd
          have : d.pk ≠ o.pk := by
            intro hc
            exact hpk.1 (hc ▸ List.mem_map_of_mem Device.pk hd)
          simp [this]
        by_cases hm : matchesFilter kwargs o
        · simp [hm, hrest]
        · simp [hm, hrest]
      · have hapk : a.pk ≠ o.pk := by
          intro hc
          exact hpk.1 (hc.symm ▸ List.mem_map_of_mem Device.pk hol)
        rw [List.filter_cons]
        simp only [hapk, decide_False, Bool.and_false, if_false]
        exact ih hpk.2 hol

/-- C10: `filter_objects` errors exactly on `None` input; a single instance
(present in the store, whose primary keys are unique) yields exactly that
instance when it satisfies every truthy constraint and the empty queryset
otherwise; a queryset yields the subset satisfying every truthy constraint,
falsy constraints being ignored. -/
theorem C10_filter_objects (db : List Device) (kwargs : List (String × Option Nat))
    (o : Device) (l : List Device)
    (hpk : (db.map Device.pk).Nodup) (ho : o ∈ db) :
    (filter_objects db FilterInput.noneInput kwargs =
        Except.error "Must supply a non-None queryset.") ∧
    (filter_objects db (FilterInput.single o) kwargs =
        Except.ok (if matchesFilter kwargs o then [o] else [])) ∧
    (∃ r, filter_objects db (FilterInput.qs l) kwargs = Except.ok r ∧
        ∀ d, d ∈ r ↔ d ∈ l ∧
          ∀ fc ∈ kwargs, ∀ pkv, fc.2 = some pkv → deviceField d fc.1 = some pkv) := by
  refine ⟨rfl, ?_, ?_⟩
  · have hv : filter_objects db (FilterInput.single o) kwargs =
        Except.ok (db.filter (fun d => matchesFilter kwargs d && decide (d.pk = o.pk))) := rfl
    rw [hv, filter_single_eq db o kwargs hpk ho]
  · refine ⟨l.filter (matchesFilter kwargs), rfl, ?_⟩
    intro d
    rw [List.mem_filter]
    constructor
    · rintro ⟨hdl, hm⟩
      refine ⟨hdl, ?_⟩
      intro fc hfc pkv hpkv
      have := List.all_eq_true.mp hm fc hfc
      unfold constraintHolds at this
      rw [hpkv] at this
      exact of_decide_eq_true this
    · rintro ⟨hdl, hall⟩
      refine ⟨hdl, ?_⟩
      apply List.all_eq_true.mpr
      intro fc hfc
      unfold constraintHolds
      cases hc : fc.2 with
      | none => rfl
      | some pkv => exact decide_eq_true (hall fc hfc pkv hc)

theorem C10_filter_objects_witness :
    filter_objects [Device.mk 1 "a" "L" "R" 10 20] FilterInput.noneInput
        [("location", some 10)] = Except.error "Must supply a non-None queryset." ∧
    filter_objects [Device.mk 1 "a" "L" "R" 10 20]
        (FilterInput.single (Device.mk 1 "a" "L" "R" 10 20)) [("location", some 10)] =
      Except.ok (if matchesFilter [("location", some 10)] (Device.mk 1 "a" "L" "R" 10 20)
        then [Device.mk 1 "a" "L" "R" 10 20] else []) :=
  ⟨(C10_filter_objects [Device.mk 1 "a" "L" "R" 10 20] [("location", some 10)]
      (Device.mk 1 "a" "L" "R" 10 20) [] (by decide) (by decide)).1,
   (C10_filter_objects [Device.mk 1 "a" "L" "R" 10 20] [("location", some 10)]
      (Device.mk 1 "a" "L" "R" 10 20) [] (by decide) (by decide)).2.1⟩

/- ### Component reconciliation model (`device_component_update.py`)

ORM model instances are modelled as `DjObj` records: a primary key, an
association list of field values, and the `_state.adding` flag.  Related
objects are stored as `Value.vref pk` references resolved against a `heap`
(the other tables the code reads).  Query managers are lists of rows;
`attrgetter`-style `query_from` paths are resolved by an abstract `resolver`
function standing for the ORM's relation navigation. -/

inductive Value where
  | vnone
  | vstr (s : String)
  | vbool (b : Bool)
  | vint (n : Int)
  | vref (pk : Nat)
deriving DecidableEq, Repr

/-- A Django/Nautobot model instance as read and written by the jobs. -/
structure DjObj where
  pk : Nat
  fields : List (String × Value)
  adding : Bool
deriving DecidableEq, Repr

def fieldsGet : List (String × Value) → String → Option Value
  | [], _ => Option.none
  | kv :: rest, n => if kv.1 = n then some kv.2 else fieldsGet rest n

def fieldsSet : List (String × Value) → String → Value → List (String × Value)
  | [], n, v => [(n, v)]
  | kv :: rest, n, v => if kv.1 = n then (n, v) :: rest else kv :: fieldsSet rest n v

/-- `getattr(o, n)`: an unset relation or missing attribute reads as `None`
(Django raises `RelatedObjectDoesNotExist`, an `ObjectDoesNotExist`, exactly
where the code catches it). -/
def getField (o : DjObj) (n : String) : Value :=
  match fieldsGet o.fields n with
  | some v => v
  | Option.none => Value.vnone

/-- `setattr(o, n, v)`. -/
def setField (o : DjObj) (n : String) (v : Value) : DjObj :=
  { o with fields := fieldsSet o.fields n v }

/-- Exceptions raised by the embedded code: `ValueError` (raised by
`filter_objects` and `FieldUpdate.update`), Django's `ObjectDoesNotExist`
and `MultipleObjectsReturned` from `.get`, and `ValidationError` from
`validated_save`. -/
inductive JobErr where
  | valueError
  | notFound
  | multiple
  | validationError
deriving DecidableEq, Repr

/-- Django's `qs.get(**{kf: key})`: the unique row whose `kf` field equals
`key`; `ObjectDoesNotExist` on zero matches, `MultipleObjectsReturned` on
more than one. -/
def managerGet (qs : List DjObj) (kf : String) (key : Value) : Except JobErr DjObj :=
  match qs.filter (fun o => decide (getField o kf = key)) with
  | [] => Except.error JobErr.notFound
  | [o] => Except.ok o
  | _ :: _ :: _ => Except.error JobErr.multiple

/-- Resolution of a `Value.vref` relation against the heap of related rows. -/
def deref (heap : List DjObj) (v : Value) : Option DjObj :=
  match v with
  | Value.vref pk => heap.find? (fun o => decide (o.pk = pk))
  | _ => Option.none

/-- The `query_from` attribute of a `FieldUpdate`: either an actual manager
(such as `Status.objects`, a list of rows) or an `attrgetter` path looked up
from the destination object. -/
inductive QuerySource where
  | manager (objs : List DjObj)
  | path (p : String)
deriving DecidableEq, Repr

/-- Embeds the `FieldUpdate` dataclass (`device_component_update.py` lines
17-45). -/
structure FieldUpdate where
  name : String
  template_name : Option String := Option.none
  default_value : Option String := Option.none
  key_field : Option String := Option.none
  query_from : Option QuerySource := Option.none
deriving DecidableEq, Repr

/-- Lines 67-70 of `device_component_update.py`: a string `query_from` is
resolved from the destination object via `attrgetter` (the abstract
`resolver`), otherwise the manager itself is used. -/
def resolveQuery (resolver : String → DjObj → List DjObj)
    (qf : Option QuerySource) (dst_obj : DjObj) : List DjObj :=
  match qf with
  | some (QuerySource.manager objs) => objs
  | some (QuerySource.path p) => resolver p dst_obj
  | Option.none => []

/-- Lines 72-76 of `device_component_update.py`: the existing value of a
relational field, with `ObjectDoesNotExist` (unset relation or no match)
caught and turned into `None`; `MultipleObjectsReturned` propagates. -/
def relOldValue (qm heap : List DjObj) (kf : String) (dst_obj : DjObj)
    (fname : String) : Except JobErr Value :=
  match deref heap (getField dst_obj fname) with
  | Option.none => Except.ok Value.vnone
  | some rel =>
      match managerGet qm kf (getField rel kf) with
      | Except.ok o => Except.ok (Value.vref o.pk)
      | Except.error JobErr.notFound => Except.ok Value.vnone
      | Except.error e => Except.error e

/-- Embeds `FieldUpdate.get_values` (`device_component_update.py` lines
47-87). -/
def FieldUpdate.get_values (f : FieldUpdate) (resolver : String → DjObj → List DjObj)
    (heap : List DjObj) (dst_obj : DjObj) (template_obj : Option DjObj) :
    Except JobErr (Value × Value) :=
  match f.key_field with
  | Option.none =>
      (match f.default_value with
       | Option.none =>
           (match template_obj with
            | some t => Except.ok (getField dst_obj f.name, getField t f.name)
            | Option.none => Except.error JobErr.valueError)
       | some dv => Except.ok (getField dst_obj f.name, Value.vstr dv))
  | some kf =>
      match relOldValue (resolveQuery resolver f.query_from dst_obj) heap kf dst_obj f.name with
      | Except.error e => Except.error e
      | Except.ok old_value =>
          match f.default_value with
          | Option.none =>
              (match template_obj with
               | Option.none => Except.error JobErr.valueError
               | some t =>
                   match deref heap (getField t (f.template_name.getD f.name)) with
                   | Option.none => Except.error JobErr.notFound
                   | some trel =>
                       match managerGet (resolveQuery resolver f.query_from dst_obj) kf
                           (getField trel kf) with
                       | Except.ok o => Except.ok (old_value, Value.vref o.pk)
                       | Except.error e => Except.error e)
          | some dv =>
              if dst_obj.adding then
                match managerGet (resolveQuery resolver f.query_from dst_obj) kf
                    (Value.vstr dv) with
                | Except.ok o => Except.ok (Value.vnone, Value.vref o.pk)
                | Except.error e => Except.error e
              else
                Except.ok (old_value, old_value)

/-- Embeds `FieldUpdate.update` (`device_component_update.py` lines 89-107):
raises `ValueError` when neither a default value nor a template object is
available, otherwise assigns the new value exactly when it differs from the
old one. -/
def FieldUpdate.update (f : FieldUpdate) (resolver : String → DjObj → List DjObj)
    (heap : List DjObj) (dst_obj : DjObj) (template_obj : Option DjObj) :
    Except JobErr DjObj :=
  if f.default_value = Option.none ∧ template_obj = Option.none then
    Except.error JobErr.valueError
  else
    match f.get_values resolver heap dst_obj template_obj with
    | Except.error e => Except.error e
    | Except.ok (old_value, new_value) =>
        if old_value ≠ new_value then Except.ok (setField dst_obj f.name new_value)
        else Except.ok dst_obj

/-- `validated_save` as supplied by the external ORM: validate, then persist
(clearing `_state.adding`), or raise `ValidationError`. -/
def validated_save (validate : DjObj → Bool) (o : DjObj) : Except JobErr DjObj :=
  if validate o then Except.ok { o with adding := false }
  else Except.error JobErr.validationError

/-- Embeds the `TemplateUpdate` dataclass (`device_component_update.py`
lines 110-132).  `remote_name` models
`device._meta.get_field(self.dst).remote_field.name`, the relation from a
component back to its device; plain string entries of `fields` are already
converted to `FieldUpdate`s as `__post_init__` does. -/
structure TemplateUpdate where
  src : String
  dst : String
  key_field : String
  fields : List FieldUpdate
  remote_name : String := "device"
deriving DecidableEq, Repr

/-- State of one destination component collection (`device.interfaces`,
`device.rear_ports`, ...) during the reconciliation loop: the persisted
rows, the next primary key the database would assign, and the log lines
emitted so far. -/
structure CompState where
  comps : List DjObj
  nextPk : Nat
  log : List String
deriving DecidableEq, Repr

/-- The `for field in self.fields` loop at lines 164-165. -/
def foldFields (resolver : String → DjObj → List DjObj) (heap : List DjObj)
    (template_obj : DjObj) : List FieldUpdate → DjObj → Except JobErr DjObj
  | [], o => Except.ok o
  | f :: fs, o =>
      match f.update resolver heap o (some template_obj) with
      | Except.ok o' => foldFields resolver heap template_obj fs o'
      | Except.error e => Except.error e

/-- Lines 164-170 of `device_component_update.py`: run the field updates on
the destination object and `validated_save` it; a `ValidationError` is
caught and logged, a saved new object is appended to the collection, a saved
existing object replaces its row. -/
def tuFinish (tu : TemplateUpdate) (resolver : String → DjObj → List DjObj)
    (heap : List DjObj) (validate : DjObj → Bool) (st : CompState)
    (log1 : List String) (template_obj dst_obj : DjObj) :
    Except JobErr CompState :=
  match foldFields resolver heap template_obj tu.fields dst_obj with
  | Except.error e => Except.error e
  | Except.ok dstF =>
      match validated_save validate dstF with
      | Except.ok saved =>
          if dstF.adding then
            Except.ok ⟨st.comps ++ [saved], st.nextPk + 1, log1⟩
          else
            Except.ok ⟨st.comps.map (fun c => if c.pk = dstF.pk then saved else c),
              st.nextPk, log1⟩
      | Except.error JobErr.validationError =>
          Except.ok ⟨st.comps, st.nextPk, log1 ++ ["Validation failed"]⟩
      | Except.error e => Except.error e

/-- One iteration of the `for template_obj in src.all()` loop
(`device_component_update.py` lines 154-170): find the pre-existing
component by key, or create a fresh one attached to the device (logging
`Created`), then update and save it. -/
def tuStep (tu : TemplateUpdate) (resolver : String → DjObj → List DjObj)
    (heap : List DjObj) (validate : DjObj → Bool) (devicePk : Nat)
    (st : CompState) (template_obj : DjObj) : Except JobErr CompState :=
  match managerGet st.comps tu.key_field (getField template_obj tu.key_field) with
  | Except.ok o => tuFinish tu resolver heap validate st st.log template_obj o
  | Except.error JobErr.notFound =>
      tuFinish tu resolver heap validate st (st.log ++ ["Created"]) template_obj
        { pk := st.nextPk, fields := [(tu.remote_name, Value.vref devicePk)], adding := true }
  | Except.error e => Except.error e

/-- Embeds `TemplateUpdate.update` (`device_component_update.py` lines
134-170): the loop over all template objects of the source collection. -/
def TemplateUpdate.update (tu : TemplateUpdate) (resolver : String → DjObj → List DjObj)
    (heap : List DjObj) (validate : DjObj → Bool) (devicePk : Nat) :
    List DjObj → CompState → Except JobErr CompState
  | [], st => Except.ok st
  | t :: ts, st =>
      match tuStep tu resolver heap validate devicePk st t with
      | Except.ok st' => tu.update resolver heap validate devicePk ts st'
      | Except.error e => Except.error e

/-- A `FieldUpdate` created from a plain string name by
`TemplateUpdate.__post_init__`. -/
def simpleField (n : String) : FieldUpdate := { name := n }

/-- The interface `status` descriptor from `TEMPLATE_UPDATES` line 183:
keyed lookup in `Status.objects` with default `Active`. -/
def statusFieldUpdate (statuses : List DjObj) : FieldUpdate :=
  { name := "status", key_field := some "name", default_value := some "Active",
    query_from := some (QuerySource.manager statuses) }

/-- Embeds the `TEMPLATE_UPDATES` table (`device_component_update.py` lines
173-246), parameterised by the current contents of `Status.objects`. -/
def TEMPLATE_UPDATES (statuses : List DjObj) : List TemplateUpdate :=
  [ { src := "interface_templates", dst := "interfaces", key_field := "name",
      fields := [simpleField "name", simpleField "label", simpleField "type",
                 simpleField "mgmt_only", statusFieldUpdate statuses] },
    { src := "rear_port_templates", dst := "rear_ports", key_field := "name",
      fields := [simpleField "name", simpleField "label", simpleField "type"] },
    { src := "front_port_templates", dst := "front_ports", key_field := "name",
      fields := [simpleField "name", simpleField "label", simpleField "type",
                 { name := "rear_port", template_name := some "rear_port_template",
                   key_field := some "name",
                   query_from := some (QuerySource.path "device.rear_ports") }] },
    { src := "console_port_templates", dst := "console_ports", key_field := "name",
      fields := [simpleField "name", simpleField "label", simpleField "type"] },
    { src := "console_server_port_templates", dst := "console_server_ports",
      key_field := "name",
      fields := [simpleField "name", simpleField "label", simpleField "type"] },
    { src := "power_port_templates", dst := "power_ports", key_field := "name",
      fields := [simpleField "name", simpleField "label", simpleField "type",
                 simpleField "maximum_draw", simpleField "allocated_draw"] },
    { src := "power_outlet_templates", dst := "power_outlets", key_field := "name",
      fields := [simpleField "name", simpleField "label", simpleField "type",
                 { name := "power_port", template_name := some "power_port_template",
                   key_field := some "name",
                   query_from := some (QuerySource.path "device.power_ports") },
                 simpleField "feed_leg"] },
    { src := "device_bay_templates", dst := "device_bays", key_field := "name",
      fields := [simpleField "name", simpleField "label"] } ]

/- ### Field access lemmas -/

theorem fieldsGet_fieldsSet_self (l : List (String × Value)) (n : String) (v : Value) :
    fieldsGet (fieldsSet l n v) n = some v := by
  induction l with
  | nil => simp [fieldsSet, fieldsGet]
  | cons kv rest ih =>
      by_cases h : kv.1 = n
      · simp [fieldsSet, h, fieldsGet]
      · simp [fieldsSet, h, fieldsGet, ih]

theorem fieldsGet_fieldsSet_other (l : List (String × Value)) (n m : String) (v : Value)
    (hnm : m ≠ n) : fieldsGet (fieldsSet l n v) m = fieldsGet l m := by
  induction l with
  | nil => simp [fieldsSet, fieldsGet, Ne.symm hnm]
  | cons kv rest ih =>
      by_cases h : kv.1 = n
      · simp [fieldsSet, h, fieldsGet, Ne.symm hnm]
      · by_cases h2 : kv.1 = m
        · simp [fieldsSet, h, fieldsGet, h2, hnm]
        · simp [fieldsSet, h, fieldsGet, h2, ih]

theorem getField_setField_self (o : DjObj) (n : String) (v : Value) :
    getField (setField o n v) n = v := by
  unfold getField setField
  simp [fieldsGet_fieldsSet_self]

theorem getField_setField_other (o : DjObj) (n m : String) (v : Value) (hnm : m ≠ n) :
    getField (setField o n v) m = getField o m := by
  unfold getField setField
  simp [fieldsGet_fieldsSet_other _ _ _ _ hnm]

theorem setField_pk_adding (o : DjObj) (n : String) (v : Value) :
    (setField o n v).pk = o.pk ∧ (setField o n v).adding = o.adding := ⟨rfl, rfl⟩

/- ### `managerGet` lemmas -/

theorem managerGet_ok {qs : List DjObj} {kf : String} {key : Value} {c : DjObj}
    (h : managerGet qs kf key = Except.ok c) : c ∈ qs ∧ getField c kf = key := by
  unfold managerGet at h
  cases hf : qs.filter (fun o => decide (getField o kf = key)) with
  | nil => rw [hf] at h; cases h
  | cons a rest =>
      cases rest with
      | nil =>
          have ha : a ∈ qs.filter (fun o => decide (getField o kf = key)) := by
            rw [hf]; exact List.mem_cons_self a []
          have hmem := List.mem_filter.mp ha
          rw [hf] at h
          injection h with h2
          rw [← h2]
          exact ⟨hmem.1, of_decide_eq_true hmem.2⟩
      | cons b rest2 => rw [hf] at h; cases h

theorem managerGet_notFound {qs : List DjObj} {kf : String} {key : Value}
    (h : managerGet qs kf key = Except.error JobErr.notFound) :
    ∀ c ∈ qs, getField c kf ≠ key := by
  unfold managerGet at h
  cases hf : qs.filter (fun o => decide (getField o kf = key)) with
  | nil =>
      intro c hc hkey
      have : c ∈ qs.filter (fun o => decide (getField o kf = key)) :=
        List.mem_filter.mpr ⟨hc, decide_eq_true hkey⟩
      rw [hf] at this
      cases this
  | cons a rest =>
      cases rest with
      | nil => rw [hf] at h; cases h
      | cons b rest2 => rw [hf] at h; cases h

theorem managerGet_error {qs : List DjObj} {kf : String} {key : Value} {e : JobErr}
    (h : managerGet qs kf key = Except.error e) :
    e = JobErr.notFound ∨ e = JobErr.multiple := by
  unfold managerGet at h
  cases hf : qs.filter (fun o => decide (getField o kf = key)) with
  | nil => rw [hf] at h; cases h; exact Or.inl rfl
  | cons a rest =>
      cases rest with
      | nil => rw [hf] at h; cases h
      | cons b rest2 => rw [hf] at h; cases h; exact Or.inr rfl

/- ### `FieldUpdate.update` facts -/

theorem fieldUpdate_ok_shape {f : FieldUpdate} {resolver : String → DjObj → List DjObj}
    {heap : List DjObj} {o : DjObj} {t : Option DjObj} {o' : DjObj}
    (h : f.update resolver heap o t = Except.ok o') :
    o' = o ∨ ∃ v, o' = setField o f.name v := by
  unfold FieldUpdate.update at h
  by_cases hg : f.default_value = Option.none ∧ t = Option.none
  · simp [hg] at h
  · simp only [if_neg hg] at h
    cases hgv : f.get_values resolver heap o t with
    | error e => rw [hgv] at h; cases h
    | ok p =>
        rw [hgv] at h
        obtain ⟨old_value, new_value⟩ := p
        by_cases hne : old_value ≠ new_value
        · simp [hne] at h
          exact Or.inr ⟨new_value, h.symm⟩
        · simp [hne] at h
          exact Or.inl h.symm

theorem fieldUpdate_ok_preserves {f : FieldUpdate} {resolver : String → DjObj → List DjObj}
    {heap : List DjObj} {o : DjObj} {t : Option DjObj} {o' : DjObj}
    (h : f.update resolver heap o t = Except.ok o') :
    o'.pk = o.pk ∧ o'.adding = o.adding ∧
      ∀ m, m ≠ f.name → getField o' m = getField o m := by
  rcases fieldUpdate_ok_shape h with rfl | ⟨v, rfl⟩
  · exact ⟨rfl, rfl, fun m _ => rfl⟩
  · exact ⟨rfl, rfl, fun m hm => getField_setField_other o f.name m v hm⟩

/-- A simple `FieldUpdate` (no key field, no default) copies the template's
field verbatim: exact evaluation of `FieldUpdate.update`. -/
theorem fieldUpdate_simple_eval (f : FieldUpdate) (resolver : String → DjObj → List DjObj)
    (heap : List DjObj) (o t : DjObj)
    (hkf : f.key_field = Option.none) (hdv : f.default_value = Option.none) :
    f.update resolver heap o (some t) =
      Except.ok (if getField o f.name ≠ getField t f.name
        then setField o f.name (getField t f.name) else o) := by
  unfold FieldUpdate.update FieldUpdate.get_values
  rw [hkf, hdv]
  by_cases hne : getField o f.name ≠ getField t f.name
  · simp [hne]
  · simp [hne]

theorem fieldUpdate_simple_result (f : FieldUpdate) (resolver : String → DjObj → List DjObj)
    (heap : List DjObj) (o t : DjObj)
    (hkf : f.key_field = Option.none) (hdv : f.default_value = Option.none) :
    ∃ o', f.update resolver heap o (some t) = Except.ok o' ∧
      getField o' f.name = getField t f.name := by
  rw [fieldUpdate_simple_eval f resolver heap o t hkf hdv]
  by_cases hne : getField o f.name ≠ getField t f.name
  · exact ⟨_, by rw [if_pos hne], getField_setField_self o f.name _⟩
  · push_neg at hne
    exact ⟨o, by rw [if_neg (by simpa using hne)], hne⟩

theorem relOldValue_error_not_validation {qm heap : List DjObj} {kf : String}
    {dst_obj : DjObj} {fname : String} {e : JobErr}
    (h : relOldValue qm heap kf dst_obj fname = Except.error e) :
    e ≠ JobErr.validationError := by
  unfold relOldValue at h
  cases hd : deref heap (getField dst_obj fname) with
  | none => rw [hd] at h; cases h
  | some rel =>
      rw [hd] at h
      simp only [] at h
      cases hm : managerGet qm kf (getField rel kf) with
      | ok o => rw [hm] at h; cases h
      | error e' =>
          rw [hm] at h
          rcases managerGet_error hm with rfl | rfl
          · cases h
          · cases h; decide

theorem getValues_error_not_validation {f : FieldUpdate}
    {resolver : String → DjObj → List DjObj} {heap : List DjObj} {o : DjObj}
    {t : Option DjObj} {e : JobErr}
    (h : f.get_values resolver heap o t = Except.error e) :
    e ≠ JobErr.validationError := by
  unfold FieldUpdate.get_values at h
  cases hkf : f.key_field with
  | none =>
      rw [hkf] at h
      simp only [] at h
      cases hdv : f.default_value with
      | none =>
          rw [hdv] at h
          simp only [] at h
          cases t with
          | none => cases h; decide
          | some t0 => cases h
      | some dv => rw [hdv] at h; cases h
  | some kf =>
      rw [hkf] at h
      simp only [] at h
      cases hro : relOldValue (resolveQuery resolver f.query_from o) heap kf o f.name with
      | error e' =>
          rw [hro] at h
          cases h
          exact relOldValue_error_not_validation hro
      | ok old_value =>
          rw [hro] at h
          simp only [] at h
          cases hdv : f.default_value with
          | none =>
              rw [hdv] at h
              simp only [] at h
              cases t with
              | none => cases h; decide
              | some t0 =>
                  simp only [] at h
                  cases hd : deref heap (getField t0 (f.template_name.getD f.name)) with
                  | none => rw [hd] at h; cases h; decide
                  | some trel =>
                      rw [hd] at h
                      simp only [] at h
                      cases hm : managerGet (resolveQuery resolver f.query_from o) kf
                          (getField trel kf) with
                      | ok o2 => rw [hm] at h; cases h
                      | error e2 =>
                          rw [hm] at h
                          cases h
                          rcases managerGet_error hm with rfl | rfl <;> decide
          | some dv =>
              rw [hdv] at h
              simp only [] at h
              by_cases ha : o.adding
              · simp only [ha, if_true] at h
                cases hm : managerGet (resolveQuery resolver f.query_from o) kf
                    (Value.vstr dv) with
                | ok o2 => rw [hm] at h; cases h
                | error e2 =>
                    rw [hm] at h
                    cases h
                    rcases managerGet_error hm with rfl | rfl <;> decide
              · simp only [ha, if_false] at h
                cases h

theorem fieldUpdate_error_not_validation {f : FieldUpdate}
    {resolver : String → DjObj → List DjObj} {heap : List DjObj} {o : DjObj}
    {t : Option DjObj} {e : JobErr}
    (h : f.update resolver heap o t = Except.error e) : e ≠ JobErr.validationError := by
  unfold FieldUpdate.update at h
  by_cases hg : f.default_value = Option.none ∧ t = Option.none
  · rw [if_pos hg] at h
    cases h
    decide
  · simp only [if_neg hg] at h
    cases hgv : f.get_values resolver heap o t with
    | ok p =>
        rw [hgv] at h
        obtain ⟨old_value, new_value⟩ := p
        by_cases hne : old_value ≠ new_value
        · simp [hne] at h
        · simp [hne] at h
    | error e' =>
        rw [hgv] at h
        cases h
        exact getValues_error_not_validation hgv

/- ### `foldFields` lemmas -/

theorem foldFields_ok_preserves {resolver : String → DjObj → List DjObj} {heap : List DjObj}
    {t : DjObj} {fs : List FieldUpdate} {o o' : DjObj}
    (h : foldFields resolver heap t fs o = Except.ok o') :
    o'.pk = o.pk ∧ o'.adding = o.adding ∧
      ∀ m, (∀ f ∈ fs, f.name ≠ m) → getField o' m = getField o m := by
  induction fs generalizing o with
  | nil =>
      cases h
      exact ⟨rfl, rfl, fun m _ => rfl⟩
  | cons f fs ih =>
      unfold foldFields at h
      cases hu : f.update resolver heap o (some t) with
      | error e => rw [hu] at h; cases h
      | ok o1 =>
          rw [hu] at h
          obtain ⟨hpk1, had1, hf1⟩ := fieldUpdate_ok_preserves hu
          obtain ⟨hpk2, had2, hf2⟩ := ih h
          refine ⟨hpk2.trans hpk1, had2.trans had1, ?_⟩
          intro m hm
          have h2 : getField o' m = getField o1 m :=
            hf2 m (fun g hg => hm g (List.mem_cons_of_mem f hg))
          have h1 : getField o1 m = getField o m :=
            hf1 m (Ne.symm (hm f (List.mem_cons_self f fs)))
          exact h2.trans h1

theorem foldFields_simple {resolver : String → DjObj → List DjObj} {heap : List DjObj}
    {t : DjObj} {fs : List FieldUpdate} {o o' : DjObj}
    (hnd : (fs.map FieldUpdate.name).Nodup)
    (h : foldFields resolver heap t fs o = Except.ok o') :
    ∀ f ∈ fs, f.key_field = Option.none → f.default_value = Option.none →
      getField o' f.name = getField t f.name := by
  induction fs generalizing o with
  | nil => intro f hf; cases hf
  | cons g gs ih =>
      unfold foldFields at h
      cases hu : g.update resolver heap o (some t) with
      | error e => rw [hu] at h; cases h
      | ok o1 =>
          rw [hu] at h
          rw [List.map_cons, List.nodup_cons] at hnd
          intro f hf hkf hdv
          rcases List.mem_cons.mp hf with rfl | hftail
          · obtain ⟨o1', hu', hval⟩ := fieldUpdate_simple_result f resolver heap o t hkf hdv
            rw [hu] at hu'
            injection hu' with he
            have hval1 : getField o1 f.name = getField t f.name := by
              rw [he]; exact hval
            have hnames : ∀ g' ∈ gs, g'.name ≠ f.name := by
              intro g' hg' hc
              exact hnd.1 (hc ▸ List.mem_map_of_mem FieldUpdate.name hg')
            have hpres : getField o' f.name = getField o1 f.name :=
              (foldFields_ok_preserves h).2.2 f.name hnames
            exact hpres.trans hval1
          · exact ih hnd.2 h f hftail hkf hdv

theorem foldFields_error_not_validation {resolver : String → DjObj → List DjObj}
    {heap : List DjObj} {t : DjObj} {fs : List FieldUpdate} {o : DjObj} {e : JobErr}
    (h : foldFields resolver heap t fs o = Except.error e) : e ≠ JobErr.validationError := by
  induction fs generalizing o with
  | nil => cases h
  | cons f fs ih =>
      unfold foldFields at h
      cases hu : f.update resolver heap o (some t) with
      | ok o1 => rw [hu] at h; exact ih h
      | error e' => rw [hu] at h; cases h; exact fieldUpdate_error_not_validation hu

/- ### `validated_save` lemmas -/

theorem validated_save_error {validate : DjObj → Bool} {o : DjObj} {e : JobErr}
    (h : validated_save validate o = Except.error e) : e = JobErr.validationError := by
  unfold validated_save at h
  by_cases hv : validate o
  · rw [if_pos hv] at h; cases h
  · rw [if_neg hv] at h; cases h; rfl

theorem validated_save_of_true {validate : DjObj → Bool} {o : DjObj}
    (hv : validate o = true) :
    validated_save validate o = Except.ok { o with adding := false } := by
  unfold validated_save
  rw [hv]
  simp

theorem validated_save_of_false {validate : DjObj → Bool} {o : DjObj}
    (hv : validate o = false) :
    validated_save validate o = Except.error JobErr.validationError := by
  unfold validated_save
  rw [hv]
  simp

/- ### The `ValidationError` catch in `tuFinish` / `tuStep` / `update` -/

theorem tuFinish_error_not_validation {tu : TemplateUpdate}
    {resolver : String → DjObj → List DjObj} {heap : List DjObj} {validate : DjObj → Bool}
    {st : CompState} {log1 : List String} {tobj dobj : DjObj} {e : JobErr}
    (h : tuFinish tu resolver heap validate st log1 tobj dobj = Except.error e) :
    e ≠ JobErr.validationError := by
  unfold tuFinish at h
  cases hf : foldFields resolver heap tobj tu.fields dobj with
  | error e' => rw [hf] at h; cases h; exact foldFields_error_not_validation hf
  | ok dstF =>
      rw [hf] at h
      simp only [] at h
      cases hs : validated_save validate dstF with
      | ok saved =>
          rw [hs] at h
          by_cases ha : dstF.adding
          · simp [ha] at h
          · simp [ha] at h
      | error e2 =>
          have he2 := validated_save_error hs
          subst he2
          rw [hs] at h
          cases h

theorem tuStep_error_not_validation {tu : TemplateUpdate}
    {resolver : String → DjObj → List DjObj} {heap : List DjObj} {validate : DjObj → Bool}
    {devicePk : Nat} {st : CompState} {t : DjObj} {e : JobErr}
    (h : tuStep tu resolver heap validate devicePk st t = Except.error e) :
    e ≠ JobErr.validationError := by
  unfold tuStep at h
  cases hm : managerGet st.comps tu.key_field (getField t tu.key_field) with
  | ok o => rw [hm] at h; exact tuFinish_error_not_validation h
  | error e' =>
      rcases managerGet_error hm with rfl | rfl
      · rw [hm] at h
        exact tuFinish_error_not_validation h
      · rw [hm] at h
        cases h
        decide

theorem tuUpdate_error_not_validation {tu : TemplateUpdate}
    {resolver : String → DjObj → List DjObj} {heap : List DjObj} {validate : DjObj → Bool}
    {devicePk : Nat} {ts : List DjObj} {st : CompState} {e : JobErr}
    (h : tu.update resolver heap validate devicePk ts st = Except.error e) :
    e ≠ JobErr.validationError := by
  induction ts generalizing st with
  | nil => cases h
  | cons t ts ih =>
      unfold TemplateUpdate.update at h
      cases hs : tuStep tu resolver heap validate devicePk st t with
      | ok st1 => rw [hs] at h; exact ih h
      | error e' => rw [hs] at h; cases h; exact tuStep_error_not_validation hs

/- ### Length bounds (C7) -/

theorem tuFinish_length {tu : TemplateUpdate} {resolver : String → DjObj → List DjObj}
    {heap : List DjObj} {validate : DjObj → Bool} {st : CompState} {log1 : List String}
    {tobj dobj : DjObj} {st' : CompState}
    (h : tuFinish tu resolver heap validate st log1 tobj dobj = Except.ok st') :
    st'.comps.length ≤ st.comps.length + 1 := by
  unfold tuFinish at h
  cases hf : foldFields resolver heap tobj tu.fields dobj with
  | error e' => rw [hf] at h; cases h
  | ok dstF =>
      rw [hf] at h
      simp only [] at h
      cases hs : validated_save validate dstF with
      | ok saved =>
          rw [hs] at h
          by_cases ha : dstF.adding
          · simp only [ha, if_true] at h
            cases h
            simp
          · simp only [ha, if_false] at h
            cases h
            simp
      | error e2 =>
          have he2 := validated_save_error hs
          subst he2
          rw [hs] at h
          cases h
          simp

theorem tuStep_length {tu : TemplateUpdate} {resolver : String → DjObj → List DjObj}
    {heap : List DjObj} {validate : DjObj → Bool} {devicePk : Nat} {st : CompState}
    {t : DjObj} {st' : CompState}
    (h : tuStep tu resolver heap validate devicePk st t = Except.ok st') :
    st'.comps.length ≤ st.comps.length + 1 := by
  unfold tuStep at h
  cases hm : managerGet st.comps tu.key_field (getField t tu.key_field) with
  | ok o => rw [hm] at h; exact tuFinish_length h
  | error e' =>
      rcases managerGet_error hm with rfl | rfl
      · rw [hm] at h
        exact tuFinish_length h
      · rw [hm] at h
        cases h

theorem tuUpdate_length {tu : TemplateUpdate} {resolver : String → DjObj → List DjObj}
    {heap : List DjObj} {validate : DjObj → Bool} {devicePk : Nat} {ts : List DjObj}
    {st : CompState} {st' : CompState}
    (h : tu.update resolver heap validate devicePk ts st = Except.ok st') :
    st'.comps.length ≤ st.comps.length + ts.length := by
  induction ts generalizing st with
  | nil => cases h; simp
  | cons t ts ih =>
      unfold TemplateUpdate.update at h
      cases hs : tuStep tu resolver heap validate devicePk st t with
      | error e' => rw [hs] at h; cases h
      | ok st1 =>
          rw [hs] at h
          have h1 := tuStep_length hs
          have h2 := ih h
          simp only [List.length_cons]
          omega

/- ### Invariants for the reconciliation loop (C3) -/

/-- The key of a component under a `TemplateUpdate`'s `key_field`. -/
def keyOf (tu : TemplateUpdate) (c : DjObj) : Value := getField c tu.key_field

/-- Database invariant of a component collection, guaranteed externally by
Nautobot's uniqueness constraints: distinct component keys, distinct primary
keys all below the next free key, and every row persisted. -/
def StInv (tu : TemplateUpdate) (st : CompState) : Prop :=
  (st.comps.map (keyOf tu)).Nodup ∧
  (st.comps.map DjObj.pk).Nodup ∧
  (∀ c ∈ st.comps, c.pk < st.nextPk) ∧
  (∀ c ∈ st.comps, c.adding = false)

/-- Relation between the collection before the loop (`st0`) and during it:
every current row either descends from an `st0` row (same key and primary
key), or was created by the loop (fresh primary key, key absent from `st0`,
attached to the device); and every `st0` key is still present. -/
def TraceInv (tu : TemplateUpdate) (devicePk : Nat) (st0 st : CompState) : Prop :=
  st0.nextPk ≤ st.nextPk ∧
  (∀ c ∈ st.comps,
    (∃ c₀ ∈ st0.comps, keyOf tu c₀ = keyOf tu c ∧ c₀.pk = c.pk) ∨
    (st0.nextPk ≤ c.pk ∧ (∀ c₀ ∈ st0.comps, keyOf tu c₀ ≠ keyOf tu c) ∧
      getField c tu.remote_name = Value.vref devicePk)) ∧
  (∀ c₀ ∈ st0.comps, ∃ c ∈ st.comps, keyOf tu c = keyOf tu c₀)

/-- Shape of a `TemplateUpdate`'s field list shared by every entry of
`TEMPLATE_UPDATES`: the key field is maintained by its plain string
`FieldUpdate`, field names are distinct, and no field update touches the
relation back to the device. -/
def GoodFields (tu : TemplateUpdate) : Prop :=
  simpleField tu.key_field ∈ tu.fields ∧
  (tu.fields.map FieldUpdate.name).Nodup ∧
  (∀ f ∈ tu.fields, f.name ≠ tu.remote_name)

/-- Per-template conclusion of C3: the collection holds a persisted
component whose key equals the template's, whose plain fields are copied
from the template, and which is either the pre-existing row updated in place
(same primary key) or a newly created row attached to the device. -/
def ReconciledAt (tu : TemplateUpdate) (devicePk : Nat) (st0 : CompState)
    (t c : DjObj) : Prop :=
  keyOf tu c = getField t tu.key_field ∧
  c.adding = false ∧
  (∀ f ∈ tu.fields, f.key_field = Option.none → f.default_value = Option.none →
    getField c f.name = getField t f.name) ∧
  ((∃ c₀ ∈ st0.comps, keyOf tu c₀ = getField t tu.key_field ∧ c.pk = c₀.pk) ∨
   (st0.nextPk ≤ c.pk ∧ (∀ c₀ ∈ st0.comps, keyOf tu c₀ ≠ getField t tu.key_field) ∧
     getField c tu.remote_name = Value.vref devicePk))

theorem djPk_inj {comps : List DjObj} (hpks : (comps.map DjObj.pk).Nodup)
    {a b : DjObj} (ha : a ∈ comps) (hb : b ∈ comps) (h : a.pk = b.pk) : a = b :=
  List.inj_on_of_nodup_map hpks ha hb h

/-- Replacing the matched row by its saved update leaves the key and primary
key columns of the collection unchanged. -/
theorem map_repl_eq (tu : TemplateUpdate) {comps : List DjObj} {dpk : Nat} {saved : DjObj}
    (hpks : (comps.map DjObj.pk).Nodup) {c₀ : DjObj} (hc₀ : c₀ ∈ comps)
    (hpk0 : c₀.pk = dpk) (hspk : saved.pk = dpk) (hskey : keyOf tu saved = keyOf tu c₀) :
    (comps.map (fun c => if c.pk = dpk then saved else c)).map (keyOf tu) =
        comps.map (keyOf tu) ∧
    (comps.map (fun c => if c.pk = dpk then saved else c)).map DjObj.pk =
        comps.map DjObj.pk := by
  constructor
  · rw [List.map_map]
    apply List.map_congr_left
    intro c hc
    simp only [Function.comp]
    by_cases h : c.pk = dpk
    · rw [if_pos h]
      have hcc : c = c₀ := djPk_inj hpks hc hc₀ (by rw [h, hpk0])
      rw [hskey, hcc]
    · rw [if_neg h]
  · rw [List.map_map]
    apply List.map_congr_left
    intro c hc
    simp only [Function.comp]
    by_cases h : c.pk = dpk
    · rw [if_pos h, hspk, h]
    · rw [if_neg h]

/-- Soundness of one iteration of the reconciliation loop: the invariants
are preserved, rows with other keys survive untouched, and the processed
template ends up reconciled. -/
theorem tuStep_sound {tu : TemplateUpdate} {resolver : String → DjObj → List DjObj}
    {heap : List DjObj} {validate : DjObj → Bool} {devicePk : Nat}
    {st0 st st₁ : CompState} {t : DjObj}
    (hgf : GoodFields tu) (hval : ∀ o, validate o = true)
    (hinv : StInv tu st) (htr : TraceInv tu devicePk st0 st)
    (hstep : tuStep tu resolver heap validate devicePk st t = Except.ok st₁) :
    StInv tu st₁ ∧ TraceInv tu devicePk st0 st₁ ∧
    (∀ c ∈ st.comps, keyOf tu c ≠ getField t tu.key_field → c ∈ st₁.comps) ∧
    (∃ c ∈ st₁.comps, ReconciledAt tu devicePk st0 t c) := by
  obtain ⟨hsimp, hndf, hremote⟩ := hgf
  obtain ⟨hkeys, hpks, hbound, hadd⟩ := hinv
  obtain ⟨hnextle, htrace, hsurv⟩ := htr
  unfold tuStep at hstep
  cases hm : managerGet st.comps tu.key_field (getField t tu.key_field) with
  | ok c₀ =>
      rw [hm] at hstep
      simp only [] at hstep
      obtain ⟨hc₀mem, hc₀key⟩ := managerGet_ok hm
      unfold tuFinish at hstep
      cases hf : foldFields resolver heap t tu.fields c₀ with
      | error e' => rw [hf] at hstep; cases hstep
      | ok dstF =>
          rw [hf] at hstep
          simp only [] at hstep
          rw [validated_save_of_true (hval dstF)] at hstep
          simp only [] at hstep
          obtain ⟨hFpk, hFadd, hFpres⟩ := foldFields_ok_preserves hf
          have hdstadd : dstF.adding = false := hFadd.trans (hadd c₀ hc₀mem)
          rw [hdstadd] at hstep
          simp only [Bool.false_eq_true, if_false] at hstep
          cases hstep
          have hkeyF : keyOf tu dstF = getField t tu.key_field :=
            foldFields_simple hndf hf (simpleField tu.key_field) hsimp rfl rfl
          have hskey : keyOf tu { dstF with adding := false } = keyOf tu c₀ := by
            show keyOf tu dstF = keyOf tu c₀
            rw [hkeyF]
            exact hc₀key.symm
          have hpk0 : c₀.pk = dstF.pk := hFpk.symm
          have hspk : ({ dstF with adding := false } : DjObj).pk = dstF.pk := rfl
          obtain ⟨hmk, hmp⟩ := map_repl_eq tu hpks hc₀mem hpk0 hspk hskey
          have hsimplef : ∀ f ∈ tu.fields, f.key_field = Option.none →
              f.default_value = Option.none →
              getField { dstF with adding := false } f.name = getField t f.name := by
            intro f hf' hk hd
            show getField dstF f.name = getField t f.name
            exact foldFields_simple hndf hf f hf' hk hd
          have hremF : getField ({ dstF with adding := false } : DjObj) tu.remote_name =
              getField c₀ tu.remote_name := by
            show getField dstF tu.remote_name = getField c₀ tu.remote_name
            exact hFpres tu.remote_name hremote
          refine ⟨⟨?_, ?_, ?_, ?_⟩, ⟨hnextle, ?_, ?_⟩, ?_, ?_⟩
          · exact hmk ▸ hkeys
          · exact hmp ▸ hpks
          · intro c' hc'
            rcases List.mem_map.mp hc' with ⟨c, hc, rfl⟩
            by_cases hcp : c.pk = dstF.pk
            · rw [if_pos hcp]
              show dstF.pk < st.nextPk
              rw [← hpk0]
              exact hbound c₀ hc₀mem
            · rw [if_neg hcp]
              exact hbound c hc
          · intro c' hc'
            rcases List.mem_map.mp hc' with ⟨c, hc, rfl⟩
            by_cases hcp : c.pk = dstF.pk
            · rw [if_pos hcp]
            · rw [if_neg hcp]
              exact hadd c hc
          · intro c' hc'
            rcases List.mem_map.mp hc' with ⟨c, hc, rfl⟩
            by_cases hcp : c.pk = dstF.pk
            · rw [if_pos hcp]
              have hcc₀ : c = c₀ := djPk_inj hpks hc hc₀mem (hcp.trans hpk0.symm)
              rcases htrace c₀ hc₀mem with ⟨c00, h00, hkey00, hpk00⟩ | ⟨hb, hk, hr⟩
              · exact Or.inl ⟨c00, h00, hkey00.trans hskey.symm, hpk00.trans hpk0⟩
              · refine Or.inr ⟨?_, ?_, ?_⟩
                · show st0.nextPk ≤ dstF.pk
                  rw [← hpk0]; exact hb
                · intro c00 h00 hc00
                  exact hk c00 h00 (hc00.trans hskey)
                · rw [hremF]; exact hr
            · rw [if_neg hcp]
              exact htrace c hc
          · intro c₀' h₀'
            obtain ⟨c, hc, hkeyc⟩ := hsurv c₀' h₀'
            refine ⟨(if c.pk = dstF.pk then { dstF with adding := false } else c), ?_, ?_⟩
            · exact List.mem_map.mpr ⟨c, hc, rfl⟩
            · by_cases hcp : c.pk = dstF.pk
              · rw [if_pos hcp]
                have hcc₀ : c = c₀ := djPk_inj hpks hc hc₀mem (hcp.trans hpk0.symm)
                rw [hskey, ← hcc₀]
                exact hkeyc
              · rw [if_neg hcp]
                exact hkeyc
          · intro c hc hkne
            have hcp : ¬ c.pk = dstF.pk := by
              intro hcp
              have hcc₀ : c = c₀ := djPk_inj hpks hc hc₀mem (hcp.trans hpk0.symm)
              exact hkne (hcc₀ ▸ hc₀key)
            exact List.mem_map.mpr ⟨c, hc, by rw [if_neg hcp]⟩
          · refine ⟨{ dstF with adding := false }, ?_, ?_, rfl, hsimplef, ?_⟩
            · exact List.mem_map.mpr ⟨c₀, hc₀mem, by rw [if_pos hpk0]⟩
            · show keyOf tu dstF = getField t tu.key_field
              exact hkeyF
            · rcases htrace c₀ hc₀mem with ⟨c00, h00, hkey00, hpk00⟩ | ⟨hb, hk, hr⟩
              · exact Or.inl ⟨c00, h00, hkey00.trans hc₀key,
                  (hspk.trans hpk0.symm).trans hpk00.symm⟩
              · refine Or.inr ⟨?_, ?_, ?_⟩
                · show st0.nextPk ≤ dstF.pk
                  rw [← hpk0]; exact hb
                · intro c00 h00 hc00
                  exact hk c00 h00 (hc00.trans hc₀key.symm)
                · rw [hremF]; exact hr
  | error e' =>
      rcases managerGet_error hm with rfl | rfl
      · -- no pre-existing component: the creation path
        rw [hm] at hstep
        simp only [] at hstep
        have hnotkey := managerGet_notFound hm
        unfold tuFinish at hstep
        cases hf : foldFields resolver heap t tu.fields
            ⟨st.nextPk, [(tu.remote_name, Value.vref devicePk)], true⟩ with
        | error e2 => rw [hf] at hstep; cases hstep
        | ok dstF =>
            rw [hf] at hstep
            simp only [] at hstep
            rw [validated_save_of_true (hval dstF)] at hstep
            simp only [] at hstep
            obtain ⟨hFpk, hFadd, hFpres⟩ := foldFields_ok_preserves hf
            rw [hFadd] at hstep
            simp only [if_true] at hstep
            cases hstep
            have hkeyF : keyOf tu dstF = getField t tu.key_field :=
              foldFields_simple hndf hf (simpleField tu.key_field) hsimp rfl rfl
            have hrem0 : getField (⟨st.nextPk, [(tu.remote_name, Value.vref devicePk)],
                true⟩ : DjObj) tu.remote_name = Value.vref devicePk := by
              simp [getField, fieldsGet]
            have hremF : getField dstF tu.remote_name = Value.vref devicePk :=
              (hFpres tu.remote_name hremote).trans hrem0
            have hkeynew : ∀ c₀' ∈ st0.comps, keyOf tu c₀' ≠ getField t tu.key_field := by
              intro c₀' h₀' hc
              obtain ⟨c, hc', hkeyc⟩ := hsurv c₀' h₀'
              exact hnotkey c hc' (hkeyc.trans hc)
            refine ⟨⟨?_, ?_, ?_, ?_⟩, ⟨?_, ?_, ?_⟩, ?_, ?_⟩
            · rw [List.map_append]
              refine List.nodup_append.mpr ⟨hkeys, List.nodup_singleton _, ?_⟩
              intro x hx hxs
              rcases List.mem_map.mp hx with ⟨c, hc, rfl⟩
              have hxk : keyOf tu c = keyOf tu { dstF with adding := false } := by
                rcases List.mem_map.mp hxs with ⟨c2, hc2, he2⟩
                rw [List.mem_singleton.mp hc2] at he2
                exact he2.symm
              have : keyOf tu c = getField t tu.key_field := by
                rw [hxk]
                exact hkeyF
              exact hnotkey c hc this
            · rw [List.map_append]
              refine List.nodup_append.mpr ⟨hpks, List.nodup_singleton _, ?_⟩
              intro x hx hxs
              rcases List.mem_map.mp hx with ⟨c, hc, rfl⟩
              have hxp : c.pk = dstF.pk := by
                rcases List.mem_map.mp hxs with ⟨c2, hc2, he2⟩
                rw [List.mem_singleton.mp hc2] at he2
                exact he2.symm
              have : c.pk < st.nextPk := hbound c hc
              rw [hxp, hFpk] at this
              exact lt_irrefl _ this
            · intro c hc
              rcases List.mem_append.mp hc with hc' | hc'
              · exact Nat.lt_succ_of_lt (hbound c hc')
              · rw [List.mem_singleton.mp hc']
                show dstF.pk < st.nextPk + 1
                rw [hFpk]
                exact Nat.lt_succ_self _
            · intro c hc
              rcases List.mem_append.mp hc with hc' | hc'
              · exact hadd c hc'
              · rw [List.mem_singleton.mp hc']
            · exact hnextle.trans (Nat.le_succ _)
            · intro c hc
              rcases List.mem_append.mp hc with hc' | hc'
              · exact htrace c hc'
              · rw [List.mem_singleton.mp hc']
                refine Or.inr ⟨?_, ?_, ?_⟩
                · show st0.nextPk ≤ dstF.pk
                  rw [hFpk]
                  exact hnextle
                · intro c₀' h₀' hc₀'
                  exact hkeynew c₀' h₀' (hc₀'.trans hkeyF)
                · exact hremF
            · intro c₀' h₀'
              obtain ⟨c, hc, hkeyc⟩ := hsurv c₀' h₀'
              exact ⟨c, List.mem_append_left _ hc, hkeyc⟩
            · intro c hc _
              exact List.mem_append_left _ hc
            · refine ⟨{ dstF with adding := false },
                List.mem_append_right _ (List.mem_singleton.mpr rfl), ?_, rfl, ?_, ?_⟩
              · show keyOf tu dstF = getField t tu.key_field
                exact hkeyF
              · intro f hf' hk hd
                show getField dstF f.name = getField t f.name
                exact foldFields_simple hndf hf f hf' hk hd
              · refine Or.inr ⟨?_, hkeynew, hremF⟩
                show st0.nextPk ≤ dstF.pk
                rw [hFpk]
                exact hnextle
      · rw [hm] at hstep
        cases hstep

/-- Soundness of the whole reconciliation loop, by induction on the
template list. -/
theorem tuRun_sound {tu : TemplateUpdate} {resolver : String → DjObj → List DjObj}
    {heap : List DjObj} {validate : DjObj → Bool} {devicePk : Nat}
    {st0 : CompState} {ts : List DjObj} {st st' : CompState}
    (hgf : GoodFields tu) (hval : ∀ o, validate o = true)
    (hinv : StInv tu st) (htr : TraceInv tu devicePk st0 st)
    (hnd : (ts.map (fun t => getField t tu.key_field)).Nodup)
    (hrun : tu.update resolver heap validate devicePk ts st = Except.ok st') :
    StInv tu st' ∧ TraceInv tu devicePk st0 st' ∧
    (∀ c ∈ st.comps, (∀ t ∈ ts, keyOf tu c ≠ getField t tu.key_field) → c ∈ st'.comps) ∧
    (∀ t ∈ ts, ∃ c ∈ st'.comps, ReconciledAt tu devicePk st0 t c) := by
  induction ts generalizing st with
  | nil =>
      cases hrun
      exact ⟨hinv, htr, fun c hc _ => hc, fun t ht => absurd ht (List.not_mem_nil t)⟩
  | cons t ts ih =>
      unfold TemplateUpdate.update at hrun
      cases hs : tuStep tu resolver heap validate devicePk st t with
      | error e => rw [hs] at hrun; cases hrun
      | ok st₁ =>
          rw [hs] at hrun
          obtain ⟨hinv₁, htr₁, hpres₁, c, hcmem, hcrec⟩ := tuStep_sound hgf hval hinv htr hs
          rw [List.map_cons, List.nodup_cons] at hnd
          obtain ⟨hinv', htr', hpres', hdone'⟩ := ih hinv₁ htr₁ hnd.2 hrun
          refine ⟨hinv', htr', ?_, ?_⟩
          · intro c' hc' hkeys'
            exact hpres' c' (hpres₁ c' hc' (hkeys' t (List.mem_cons_self t ts)))
              (fun t' ht' => hkeys' t' (List.mem_cons_of_mem t ht'))
          · intro t' ht'
            rcases List.mem_cons.mp ht' with rfl | ht'tail
            · have hckey : keyOf tu c = getField t' tu.key_field := hcrec.1
              have hcin : c ∈ st'.comps := by
                apply hpres' c hcmem
                intro t2 ht2 hc2
                have heq2 : getField t2 tu.key_field = getField t' tu.key_field :=
                  hc2.symm.trans hckey
                have hmem2 : getField t2 tu.key_field ∈
                    ts.map (fun x => getField x tu.key_field) :=
                  List.mem_map_of_mem _ ht2
                rw [heq2] at hmem2
                exact hnd.1 hmem2
              exact ⟨c, hcin, hcrec⟩
            · exact hdone' t' ht'tail

/-- C3: under the database invariants (unique component keys and primary
keys, unique template names — Nautobot uniqueness constraints), field lists
shaped like every entry of `TEMPLATE_UPDATES`, and successful validation,
`TemplateUpdate.update` leaves the device's collection with a persisted
component per template whose key field (`name`) equals the template's, whose
plain fields are copied from the template, updated in place when a component
with that key already existed and otherwise newly created attached to the
device. -/
theorem C3_template_reconciliation (tu : TemplateUpdate)
    (resolver : String → DjObj → List DjObj) (heap : List DjObj)
    (validate : DjObj → Bool) (devicePk : Nat) (templates : List DjObj)
    (st0 st' : CompState)
    (hgf : GoodFields tu) (hval : ∀ o, validate o = true)
    (hinv : StInv tu st0)
    (hnd : (templates.map (fun t => getField t tu.key_field)).Nodup)
    (hrun : tu.update resolver heap validate devicePk templates st0 = Except.ok st') :
    ∀ t ∈ templates, ∃ c ∈ st'.comps, ReconciledAt tu devicePk st0 t c := by
  have htr0 : TraceInv tu devicePk st0 st0 :=
    ⟨le_refl _, fun c hc => Or.inl ⟨c, hc, rfl, rfl⟩, fun c hc => ⟨c, hc, rfl⟩⟩
  exact (tuRun_sound hgf hval hinv htr0 hnd hrun).2.2.2

/- ### Concrete witness data -/

/-- Validation that always succeeds (well-formed data). -/
def validateTrue : DjObj → Bool := fun _ => true

/-- Validation that always fails, to exercise the `ValidationError` catch. -/
def validateFalse : DjObj → Bool := fun _ => false

/-- Trivial relation resolver for concrete runs. -/
def wResolver : String → DjObj → List DjObj := fun _ _ => []

/-- The rear-port entry of `TEMPLATE_UPDATES`, used for concrete runs. -/
def wRearTU : TemplateUpdate :=
  { src := "rear_port_templates", dst := "rear_ports", key_field := "name",
    fields := [simpleField "name", simpleField "label", simpleField "type"] }

/-- A concrete rear-port template row. -/
def wTemplate : DjObj :=
  ⟨50, [("name", Value.vstr "rp1"), ("label", Value.vstr "RP 1"),
        ("type", Value.vstr "8p8c")], false⟩

/-- An empty rear-port collection. -/
def wSt0 : CompState := ⟨[], 100, []⟩

/-- Result of reconciling `wTemplate` against the empty collection. -/
def wSt1 : CompState :=
  match wRearTU.update wResolver [] validateTrue 9 [wTemplate] wSt0 with
  | Except.ok st => st
  | Except.error _ => wSt0

/-- A concrete pre-existing destination row for the field-update phase. -/
def wDobj : DjObj := ⟨60, [("name", Value.vstr "rp1")], false⟩

/-- Result of the field-update phase on `wDobj`. -/
def wDstF : DjObj :=
  match foldFields wResolver [] wTemplate wRearTU.fields wDobj with
  | Except.ok o => o
  | Except.error _ => wDobj

theorem C3_template_reconciliation_witness :
    ∃ c ∈ wSt1.comps, ReconciledAt wRearTU 9 wSt0 wTemplate c :=
  C3_template_reconciliation wRearTU wResolver [] validateTrue 9 [wTemplate] wSt0 wSt1
    (by constructor
        · decide
        · constructor
          · decide
          · decide)
    (fun _ => rfl)
    (by constructor
        · decide
        · constructor
          · decide
          · constructor
            · decide
            · decide)
    (by decide) rfl wTemplate (List.mem_singleton.mpr rfl)

/- ### C4: the error picture -/

/-- C4 as stated is false: `filter_objects` raises a `ValueError` of its own
when its `objects` argument is `None` (`util.py` lines 36-37), so the code
does have operations that raise exceptions of their own. -/
theorem C4_counterexample :
    filter_objects [] FilterInput.noneInput [] =
      Except.error "Must supply a non-None queryset." := rfl

/-- C4 amended: the per-record `ValidationError` from `validated_save` is
caught inside `TemplateUpdate.update` — when validation of a record fails
the loop logs `Validation failed`, leaves the collection unchanged and
continues, and the loop never surfaces a `ValidationError` — but the
repository's own code does raise two `ValueError`s: `filter_objects` on
`None` input (the counterexample) and `FieldUpdate.update` when neither a
default value nor a template object is supplied. -/
theorem C4_validation_caught_amended (tu : TemplateUpdate)
    (resolver : String → DjObj → List DjObj) (heap : List DjObj)
    (validate : DjObj → Bool) (devicePk : Nat) (templates : List DjObj)
    (st0 st : CompState) (log1 : List String) (tobj dobj dstF : DjObj)
    (f : FieldUpdate) (o : DjObj)
    (hfold : foldFields resolver heap tobj tu.fields dobj = Except.ok dstF)
    (hvfail : validate dstF = false)
    (hdv : f.default_value = Option.none) :
    tu.update resolver heap validate devicePk templates st0 ≠
      Except.error JobErr.validationError ∧
    tuFinish tu resolver heap validate st log1 tobj dobj =
      Except.ok ⟨st.comps, st.nextPk, log1 ++ ["Validation failed"]⟩ ∧
    f.update resolver heap o Option.none = Except.error JobErr.valueError := by
  refine ⟨?_, ?_, ?_⟩
  · intro hc
    exact tuUpdate_error_not_validation hc rfl
  · unfold tuFinish
    rw [hfold]
    simp only []
    rw [validated_save_of_false hvfail]
  · unfold FieldUpdate.update
    rw [if_pos ⟨hdv, rfl⟩]

theorem C4_validation_caught_amended_witness :
    wRearTU.update wResolver [] validateFalse 9 [wTemplate] wSt0 ≠
      Except.error JobErr.validationError ∧
    tuFinish wRearTU wResolver [] validateFalse wSt0 [] wTemplate wDobj =
      Except.ok ⟨wSt0.comps, wSt0.nextPk, [] ++ ["Validation failed"]⟩ ∧
    (simpleField "label").update wResolver [] wDobj Option.none =
      Except.error JobErr.valueError :=
  C4_validation_caught_amended wRearTU wResolver [] validateFalse 9 [wTemplate] wSt0 wSt0
    [] wTemplate wDobj wDstF (simpleField "label") wDobj rfl rfl rfl

/- ### C7: termination -/

/-- C7: every loop the jobs run is a finite structural iteration that
returns: the renaming pass preserves the device store's length, the
port-label pass preserves the port lists' lengths, and the reconciliation
loop returns with the collection grown by at most one row per template. -/
theorem C7_termination (store : List Device) (loc dt : Option Nat)
    (devices : Option (List Device)) (d : PortDevice) (tu : TemplateUpdate)
    (resolver : String → DjObj → List DjObj) (heap : List DjObj)
    (validate : DjObj → Bool) (devicePk : Nat) (templates : List DjObj)
    (st0 st' : CompState)
    (hrun : tu.update resolver heap validate devicePk templates st0 = Except.ok st') :
    (updateDeviceNames store loc dt devices).length = store.length ∧
    (update_object d).front_ports.length = d.front_ports.length ∧
    (update_object d).rear_ports.length = d.rear_ports.length ∧
    st'.comps.length ≤ st0.comps.length + templates.length := by
  refine ⟨?_, ?_, ?_, tuUpdate_length hrun⟩
  · unfold updateDeviceNames
    simp
  · unfold update_object
    simp
  · unfold update_object
    simp

theorem C7_termination_witness :
    (updateDeviceNames [Device.mk 1 "a1" "L" "R" 0 0] Option.none Option.none
        Option.none).length = [Device.mk 1 "a1" "L" "R" 0 0].length ∧
    (update_object (PortDevice.mk "d" [Port.mk 1 "p1" ""] [])).front_ports.length =
      (PortDevice.mk "d" [Port.mk 1 "p1" ""] []).front_ports.length ∧
    (update_object (PortDevice.mk "d" [Port.mk 1 "p1" ""] [])).rear_ports.length =
      (PortDevice.mk "d" [Port.mk 1 "p1" ""] []).rear_ports.length ∧
    wSt1.comps.length ≤ wSt0.comps.length + [wTemplate].length :=
  C7_termination [Device.mk 1 "a1" "L" "R" 0 0] Option.none Option.none Option.none
    (PortDevice.mk "d" [Port.mk 1 "p1" ""] []) wRearTU wResolver [] validateTrue 9
    [wTemplate] wSt0 wSt1 rfl

/- ### C8: the defaulted relational field (interface `status`) -/

/-- C8: a `FieldUpdate` with both a `default_value` and a `key_field` (the
interface `status` descriptor with default `Active`) never changes the field
of a destination object that already exists in the database; on a newly
created destination object (`_state.adding`) it sets the field to the query
manager's row whose key field equals the default value. -/
theorem C8_default_value_field (f : FieldUpdate) (resolver : String → DjObj → List DjObj)
    (heap : List DjObj) (dst t : DjObj) (dv kf : String)
    (hdv : f.default_value = some dv) (hkf : f.key_field = some kf) :
    (dst.adding = false → ∀ dst', f.update resolver heap dst (some t) = Except.ok dst' →
        dst' = dst) ∧
    (dst.adding = true → getField dst f.name = Value.vnone →
      ∀ s, managerGet (resolveQuery resolver f.query_from dst) kf (Value.vstr dv) =
          Except.ok s →
        f.update resolver heap dst (some t) =
          Except.ok (setField dst f.name (Value.vref s.pk))) := by
  constructor
  · intro haddF dst' hupd
    unfold FieldUpdate.update at hupd
    rw [if_neg (by simp [hdv])] at hupd
    unfold FieldUpdate.get_values at hupd
    rw [hkf] at hupd
    simp only [] at hupd
    cases hro : relOldValue (resolveQuery resolver f.query_from dst) heap kf dst f.name with
    | error e => rw [hro] at hupd; cases hupd
    | ok old_value =>
        rw [hro] at hupd
        simp only [] at hupd
        rw [hdv] at hupd
        simp only [] at hupd
        rw [haddF] at hupd
        simp only [Bool.false_eq_true, if_false] at hupd
        simp at hupd
        exact hupd.symm
  · intro haddT hnone s hs
    have hro : relOldValue (resolveQuery resolver f.query_from dst) heap kf dst f.name =
        Except.ok Value.vnone := by
      unfold relOldValue
      rw [hnone]
      rfl
    unfold FieldUpdate.update
    rw [if_neg (by simp [hdv])]
    unfold FieldUpdate.get_values
    rw [hkf]
    simp only []
    rw [hro]
    simp only []
    rw [hdv]
    simp only []
    rw [haddT]
    simp only [if_true]
    rw [hs]
    simp

/-- An existing interface row whose status must be left alone. -/
def wStatuses : List DjObj := [⟨1, [("name", Value.vstr "Active")], false⟩]

/-- A freshly created interface (only the device relation set). -/
def wNewIface : DjObj := ⟨0, [("device", Value.vref 9)], true⟩

theorem C8_default_value_field_witness :
    (wNewIface.adding = false → ∀ dst',
        (statusFieldUpdate wStatuses).update wResolver [] wNewIface (some wTemplate) =
          Except.ok dst' → dst' = wNewIface) ∧
    (wNewIface.adding = true → getField wNewIface (statusFieldUpdate wStatuses).name =
        Value.vnone →
      ∀ s, managerGet (resolveQuery wResolver (statusFieldUpdate wStatuses).query_from
            wNewIface) "name" (Value.vstr "Active") = Except.ok s →
        (statusFieldUpdate wStatuses).update wResolver [] wNewIface (some wTemplate) =
          Except.ok (setField wNewIface (statusFieldUpdate wStatuses).name
            (Value.vref s.pk))) :=
  C8_default_value_field (statusFieldUpdate wStatuses) wResolver [] wNewIface wTemplate
    "Active" "name" rfl rfl

end NbJobs
